import Mathlib

/-! PowerLibs: the cache layer over Redis (`cache/redis.go`) and `str.LCFirst` (`str/str.go`)

A shallow embedding of the Go sources.

* The Redis server and the `go-redis` client are outside the repository.  They are
  modelled here as a key space (`Store`) with the documented behaviour of the
  commands the repository issues (`GET`, `SET`, `MGET`, `DEL`, `SADD`, `EXPIRE`,
  `SMEMBERS`, `MULTI … EXEC`).  Time does not advance: an entry keeps the
  expiration it was written with and is never evicted, except for the immediate
  deletion Redis performs on `EXPIRE` with a non-positive timeout.
* Transport faults are supplied by an oracle `World.net`: round trip number `n`
  fails with `net n` when that is `some msg`; a failed round trip is not executed
  by the server.
* `encoding/json` and the argument encoder of the client are parameters
  (`Codec`).
* A Go `interface{}` holding a value of the universe `V` is `Option V`, `none`
  being the `nil` interface.
* A Go `panic` is the `Outcome.panicked` result.
* Every round trip and every invocation of a callback is appended to `World.log`.
* The text carried by an error is indicative; no statement depends on it beyond
  telling the kinds of error apart.
-/

set_option autoImplicit false

namespace PowerLibs

namespace Cache

/-- Go `time.Duration`: a signed number of nanoseconds. -/
abbrev Duration := Int

/-- One second as a `time.Duration`. -/
def second : Duration := 1000000000

/-- The go-redis constant `KeepTTL`. -/
def KeepTTL : Duration := -1

/-- The errors that the cache layer can hand to its callers. -/
inductive Err where
  /-- The package level `ErrCacheMiss`. -/
  | cacheMiss
  /-- The client sentinel `redis.Nil`. -/
  | redisNil
  /-- A network or protocol failure of the round trip. -/
  | transport (msg : String)
  /-- An error reply of the server (`WRONGTYPE`, `ERR wrong number of arguments`). -/
  | server (msg : String)
  /-- The error of `json.Marshal`. -/
  | encoding (msg : String)
  /-- The error of `json.Unmarshal`. -/
  | decoding (msg : String)
  /-- The client cannot put the argument on the wire. -/
  | wire (msg : String)
  deriving DecidableEq, Repr

/-- What a Redis key holds: a string value or a set, each with an optional time to live. -/
inductive Entry where
  | str (payload : String) (ttl : Option Duration)
  | set (members : List String) (ttl : Option Duration)
  deriving DecidableEq, Repr

/-- The key space of the server. -/
abbrev Store := String → Option Entry

/-- The commands the repository sends. -/
inductive Cmd where
  | get (key : String)
  | set (key payload : String) (expiration : Duration)
  | mget (keys : List String)
  | del (keys : List String)
  | sadd (key member : String)
  | expire (key : String) (expiration : Duration)
  | smembers (key : String)
  deriving DecidableEq, Repr

/-- What is observable of a run: single commands, transactions, callback invocations. -/
inductive Event where
  | cmd (c : Cmd)
  | tx (cs : List Cmd)
  | call
  deriving DecidableEq, Repr

/-- The value a Go `panic` carries: an error value or a formatted text. -/
inductive Panic where
  | err (e : Err)
  | text (s : String)
  deriving DecidableEq, Repr

/-- The result of a Go call that may panic. -/
inductive Outcome (α : Type) where
  | returned (a : α)
  | panicked (p : Panic)
  deriving DecidableEq, Repr

/-- Equality of results is decidable. -/
instance decEqExcept {ε α : Type} [DecidableEq ε] [DecidableEq α] : DecidableEq (Except ε α)
  | .ok a, .ok b =>
      if h : a = b then isTrue (by rw [h]) else isFalse (fun h' => h (by cases h'; rfl))
  | .error a, .error b =>
      if h : a = b then isTrue (by rw [h]) else isFalse (fun h' => h (by cases h'; rfl))
  | .ok _, .error _ => isFalse (fun h' => by cases h')
  | .error _, .ok _ => isFalse (fun h' => by cases h')

/-- The server, the network and the trace of what was done so far. -/
structure World where
  data : Store
  net : Nat → Option String
  tick : Nat
  log : List Event

/-- The serializer (`encoding/json`) and the argument encoder of the client, over a
universe `V` of non-nil Go values. -/
structure Codec (V : Type) where
  /-- The function `json.Marshal`. -/
  marshal : Option V → Except String String
  /-- The function `json.Unmarshal` into a `*interface{}`. -/
  unmarshal : String → Except String (Option V)
  /-- The client writing one command argument (`proto.Writer.WriteArg`). -/
  appendArg : Option V → Except String String

/-! ## The server -/

/-- The message of the `WRONGTYPE` reply. -/
def wrongType : String :=
  "WRONGTYPE Operation against a key holding the wrong kind of value"

/-- The message of the arity error reply. -/
def wrongArity : String := "ERR wrong number of arguments"

/-- Point update of the key space. -/
def Store.put (d : Store) (key : String) (e : Option Entry) : Store :=
  fun k => if k = key then e else d k

/-- The time to live of what a key holds. -/
def Entry.ttl : Entry → Option Duration
  | .str _ t => t
  | .set _ t => t

/-- The members of the set a key holds; no members when it holds no set. -/
def members : Option Entry → List String
  | some (.set ms _) => ms
  | _ => []

/-- Command `GET`: the payload, `redis.Nil` for a missing key, `WRONGTYPE` for a set. -/
def Store.get (d : Store) (key : String) : Except Err String :=
  match d key with
  | none => .error .redisNil
  | some (.str b _) => .ok b
  | some (.set _ _) => .error (.server wrongType)

/-- Command `SET` as go-redis sends it: `EX`/`PX` for a positive expiration, `KEEPTTL`
for `KeepTTL`, no option otherwise.  The previous value is overwritten whatever its type. -/
def Store.set (d : Store) (key payload : String) (expiration : Duration) : Store :=
  if 0 < expiration then d.put key (some (.str payload (some expiration)))
  else if expiration = KeepTTL then d.put key (some (.str payload ((d key).bind Entry.ttl)))
  else d.put key (some (.str payload none))

/-- Command `MGET`: one slot for each key, null for a key that is missing or holds no string. -/
def Store.mget (d : Store) (keys : List String) : Except Err (List (Option String)) :=
  if keys = [] then .error (.server wrongArity)
  else .ok (keys.map fun k =>
    match d k with
    | some (.str b _) => some b
    | _ => none)

/-- Command `DEL`: removes every listed key. -/
def Store.del (d : Store) (keys : List String) : Except Err Store :=
  if keys = [] then .error (.server wrongArity)
  else .ok (fun k => if k ∈ keys then none else d k)

/-- Command `SADD` with one member. -/
def Store.sadd (d : Store) (key member : String) : Except Err Store :=
  match d key with
  | none => .ok (d.put key (some (.set [member] none)))
  | some (.set ms t) =>
      .ok (d.put key (some (.set (if member ∈ ms then ms else ms ++ [member]) t)))
  | some (.str _ _) => .error (.server wrongType)

/-- Command `EXPIRE` as go-redis sends it: a missing key is left alone, a non-positive
timeout deletes the key, a positive one replaces its time to live. -/
def Store.expire (d : Store) (key : String) (expiration : Duration) : Store :=
  match d key with
  | none => d
  | some (.str b _) =>
      if expiration ≤ 0 then d.put key none else d.put key (some (.str b (some expiration)))
  | some (.set ms _) =>
      if expiration ≤ 0 then d.put key none else d.put key (some (.set ms (some expiration)))

/-- Command `SMEMBERS`. -/
def Store.smembers (d : Store) (key : String) : Except Err (List String) :=
  match d key with
  | none => .ok []
  | some (.set ms _) => .ok ms
  | some (.str _ _) => .error (.server wrongType)

/-- One queued command of a transaction: the key space afterwards and its error reply.
A command that fails leaves the key space as it was. -/
def applyCmd (c : Cmd) (d : Store) : Store × Option Err :=
  match c with
  | .set k b t => (d.set k b t, none)
  | .sadd k m =>
      match d.sadd k m with
      | .ok d' => (d', none)
      | .error e => (d, some e)
  | .expire k t => (d.expire k t, none)
  | .del ks =>
      match d.del ks with
      | .ok d' => (d', none)
      | .error e => (d, some e)
  | .get k =>
      match d.get k with
      | .ok _ => (d, none)
      | .error e => (d, some e)
  | .mget ks =>
      match d.mget ks with
      | .ok _ => (d, none)
      | .error e => (d, some e)
  | .smembers k =>
      match d.smembers k with
      | .ok _ => (d, none)
      | .error e => (d, some e)

/-- The body of `MULTI … EXEC`: every queued command runs in order, a failing one does
not stop the rest, and the first error reply is what `Exec` reports. -/
def execAll : List Cmd → Store → Store × Option Err
  | [], d => (d, none)
  | c :: cs, d =>
      let r := applyCmd c d
      let rest := execAll cs r.1
      (rest.1, match r.2 with
               | some e => some e
               | none => rest.2)

/-! ## The client -/

/-- The world after one round trip that left `d` as key space. -/
def World.step (w : World) (e : Event) (d : Store) : World :=
  ⟨d, w.net, w.tick + 1, w.log ++ [e]⟩

/-- The world after a callback ran. -/
def World.called (w : World) : World :=
  ⟨w.data, w.net, w.tick, w.log ++ [Event.call]⟩

/-- Client call `Pool.Get(ctx, key).Bytes()`. -/
def poolGet (w : World) (key : String) : Except Err String × World :=
  match w.net w.tick with
  | some m => (.error (.transport m), w.step (.cmd (.get key)) w.data)
  | none => (w.data.get key, w.step (.cmd (.get key)) w.data)

/-- Client call `Pool.Set(ctx, key, b, expires).Err()` for a byte payload. -/
def poolSet (w : World) (key payload : String) (expires : Duration) : Option Err × World :=
  match w.net w.tick with
  | some m => (some (.transport m), w.step (.cmd (.set key payload expires)) w.data)
  | none => (none, w.step (.cmd (.set key payload expires)) (w.data.set key payload expires))

/-- Client call `Pool.MGet(ctx, keys...).Result()`. -/
def poolMGet (w : World) (keys : List String) : Except Err (List (Option String)) × World :=
  match w.net w.tick with
  | some m => (.error (.transport m), w.step (.cmd (.mget keys)) w.data)
  | none => (w.data.mget keys, w.step (.cmd (.mget keys)) w.data)

/-- Client call `Pool.Del(ctx, keys...).Err()`. -/
def poolDel (w : World) (keys : List String) : Option Err × World :=
  match w.net w.tick with
  | some m => (some (.transport m), w.step (.cmd (.del keys)) w.data)
  | none =>
      match w.data.del keys with
      | .ok d => (none, w.step (.cmd (.del keys)) d)
      | .error e => (some e, w.step (.cmd (.del keys)) w.data)

/-- Client call `Pool.SMembers(ctx, key).Result()`. -/
def poolSMembers (w : World) (key : String) : Except Err (List String) × World :=
  match w.net w.tick with
  | some m => (.error (.transport m), w.step (.cmd (.smembers key)) w.data)
  | none => (w.data.smembers key, w.step (.cmd (.smembers key)) w.data)

/-- Client call `pipe.Exec(ctx)` of a transaction pipeline holding `cs`. -/
def poolExec (w : World) (cs : List Cmd) : Option Err × World :=
  match w.net w.tick with
  | some m => (some (.transport m), w.step (.tx cs) w.data)
  | none =>
      let r := execAll cs w.data
      (r.2, w.step (.tx cs) r.1)

/-! ## `cache/redis.go` -/

namespace GRedis

variable {V : Type}

/-- Go `func (gr *GRedis) Set(key string, value interface{}, expires time.Duration) error`. -/
def Set (c : Codec V) (w : World) (key : String) (value : Option V) (expires : Duration) :
    Option Err × World :=
  match c.marshal value with
  | .error m => (some (.encoding m), w)
  | .ok b => poolSet w key b expires

/-- Go `func (gr *GRedis) Get(key string, ptrValue interface{}) error`.  The result is
the returned error, or else the value stored through `ptrValue`; on an error the
pointee is untouched. -/
def Get (c : Codec V) (w : World) (key : String) : Except Err (Option V) × World :=
  let r := poolGet w key
  match r.1 with
  | .error e =>
      if e = .redisNil then (.error .cacheMiss, r.2)
      else (.error e, r.2)
  | .ok b =>
      match c.unmarshal b with
      | .error m => (.error (.decoding m), r.2)
      | .ok v => (.ok v, r.2)

/-- Go `object.HashMap` as `GetMulti` fills it: string keys bound to string values. -/
abbrev HashMap := List (String × String)

/-- The assignment `m[key] = value`. -/
def HashMap.assign (m : HashMap) (key value : String) : HashMap :=
  (key, value) :: m.filter (fun p => p.1 ≠ key)

/-- The loop `for ix, key := range keys { m[key] = res[ix].(string) }`: the type
assertion panics on a null slot. -/
def fillMap (res : List (Option String)) : List String → Nat → HashMap → Outcome HashMap
  | [], _, m => .returned m
  | key :: rest, ix, m =>
      match res.get? ix with
      | none => .panicked (.text "index out of range")
      | some none => .panicked (.text "interface conversion: interface \x7b\x7d is nil, not string")
      | some (some s) => fillMap res rest (ix + 1) (m.assign key s)

/-- Go `func (gr *GRedis) GetMulti(keys ...string) (object.HashMap, error)`. -/
def GetMulti (w : World) (keys : List String) : Outcome (Except Err HashMap) × World :=
  let r := poolMGet w keys
  match r.1 with
  | .error e => (.returned (.error e), r.2)
  | .ok res =>
      if res.length = 0 then (.returned (.error .cacheMiss), r.2)
      else
        match fillMap res keys 0 [] with
        | .returned m => (.returned (.ok m), r.2)
        | .panicked p => (.panicked p, r.2)

/-- Go `func (gr *GRedis) Delete(key string) error`. -/
def Delete (w : World) (key : String) : Option Err × World :=
  poolDel w [key]

/-- Go `func (gr *GRedis) Put(key interface{}, value interface{}, ttl time.Duration) bool`,
called with a string key: `panic(err)` when `Set` fails, `true` otherwise. -/
def Put (c : Codec V) (w : World) (key : String) (value : Option V) (ttl : Duration) :
    Outcome Bool × World :=
  let r := Set c w key value ttl
  match r.1 with
  | some e => (.panicked (.err e), r.2)
  | none => (.returned true, r.2)

/-- Go `func (gr *GRedis) Remember(key string, ttl time.Duration, callback func() interface{})
(obj interface{}, err error)`.  The callback is a thunk whose invocation is logged. -/
def Remember (c : Codec V) (w : World) (key : String) (ttl : Duration)
    (callback : Unit → Option V) : Outcome (Option V × Option Err) × World :=
  let g := Get c w key
  let value : Option V :=
    match g.1 with
    | .ok v => v
    | .error _ => none
  let err : Option Err :=
    match g.1 with
    | .ok _ => none
    | .error e => some e
  if err ≠ none ∧ err ≠ some .cacheMiss then (.returned (none, err), g.2)
  else if value.isSome then (.returned (value, err), g.2)
  else
    let produced := callback ()
    let p := Put c g.2.called key produced ttl
    match p.1 with
    | .panicked q => (.panicked q, p.2)
    | .returned result =>
        if !result then
          (.panicked (.text ("remember cache put err, ttl:" ++ toString ttl)), p.2)
        else (.returned (produced, err), p.2)

/-- The commands queued by the loop of `SetByTags`: `SAdd(tag, key)` and
`Expire(tag, expiry)` for each tag in turn. -/
def tagCmds (key : String) (expiry : Duration) : List String → List Cmd
  | [] => []
  | tag :: rest => .sadd tag key :: .expire tag expiry :: tagCmds key expiry rest

/-- Go `func (gr *GRedis) SetByTags(key string, val interface{}, tags []string,
expiry time.Duration) error`.  The value goes to `pipe.Set` as it is, so it is the
client that writes it as a command argument; when it cannot, `Exec` fails before
anything is sent. -/
def SetByTags (c : Codec V) (w : World) (key : String) (val : Option V) (tags : List String)
    (expiry : Duration) : Option Err × World :=
  match c.appendArg val with
  | .error m => (some (.wire m), w)
  | .ok b => poolExec w (tagCmds key expiry tags ++ [.set key b expiry])

/-- The loop of `Invalidate`: for each tag read its members (an error gives none),
append the tag and then the members. -/
def collectKeys : List String → World → List String → List String × World
  | [], w, keys => (keys, w)
  | tag :: rest, w, keys =>
      let r := poolSMembers w tag
      let k : List String :=
        match r.1 with
        | .ok ms => ms
        | .error _ => []
      collectKeys rest r.2 ((keys ++ [tag]) ++ k)

/-- Go `func (gr *GRedis) Invalidate(tags []string)`. -/
def Invalidate (w : World) (tags : List String) : World :=
  let r := collectKeys tags w []
  (poolDel r.2 r.1).2

/-- The two tagged writes of the tag invalidation scenario: `k1` under `[A]`, then `k2`
under `[A, B]`. -/
def taggedPair (c : Codec V) (w : World) (k1 k2 A B : String) (v1 v2 : Option V)
    (ttl : Duration) : World :=
  (SetByTags c (SetByTags c w k1 v1 [A] ttl).2 k2 v2 [A, B] ttl).2

/-- The tag isolation scenario: the two tagged writes, then `k3` under `[B]`. -/
def taggedTriple (c : Codec V) (w : World) (k1 k2 k3 A B : String) (v1 v2 v3 : Option V)
    (ttl : Duration) : World :=
  (SetByTags c (taggedPair c w k1 k2 A B v1 v2 ttl) k3 v3 [B] ttl).2

end GRedis

/-! ## A serializer instance

`encoding/json` and the argument encoder of go-redis restricted to a universe of
strings, booleans and function values.  `jsonUnmarshal` reads the JSON texts whose
value lies in that universe (`null`, `true`, `false`, string literals); a number,
array or object has no counterpart in the universe and is reported as an error. -/

/-- A universe of Go values: strings, booleans and function values. -/
inductive Dyn where
  | str (s : String)
  | bool (b : Bool)
  | func
  deriving DecidableEq, Repr

/-- The backslash. -/
def backslash : Char := Char.ofNat 92

/-- The double quote. -/
def dquote : Char := Char.ofNat 34

/-- Lower-case hexadecimal digit. -/
def hexDigit (n : Nat) : Char :=
  Char.ofNat (if n < 10 then 48 + n else 87 + n)

/-- How `json.Marshal` writes one character of a string (HTML escaping on, Go before 1.22). -/
def escapeChar (c : Char) : List Char :=
  let n := c.toNat
  if n = 34 then [backslash, dquote]
  else if n = 92 then [backslash, backslash]
  else if n = 10 then [backslash, 'n']
  else if n = 13 then [backslash, 'r']
  else if n = 9 then [backslash, 't']
  else if n < 32 ∨ n = 60 ∨ n = 62 ∨ n = 38 then
    [backslash, 'u', '0', '0', hexDigit (n / 16), hexDigit (n % 16)]
  else if n = 8232 then [backslash, 'u', '2', '0', '2', '8']
  else if n = 8233 then [backslash, 'u', '2', '0', '2', '9']
  else [c]

/-- The function `json.Marshal` on the universe `Dyn`. -/
def jsonMarshal : Option Dyn → Except String String
  | none => .ok "null"
  | some (.bool true) => .ok "true"
  | some (.bool false) => .ok "false"
  | some (.str s) => .ok (String.mk (dquote :: (s.data.flatMap escapeChar ++ [dquote])))
  | some .func => .error "json: unsupported type: func()"

/-- JSON white space. -/
def isSpace (c : Char) : Bool :=
  c.toNat = 32 || c.toNat = 9 || c.toNat = 10 || c.toNat = 13

/-- Drop JSON white space at both ends. -/
def trimSpace (cs : List Char) : List Char :=
  ((cs.dropWhile isSpace).reverse.dropWhile isSpace).reverse

/-- The value of a hexadecimal digit. -/
def hexVal (c : Char) : Option Nat :=
  let n := c.toNat
  if 48 ≤ n ∧ n ≤ 57 then some (n - 48)
  else if 97 ≤ n ∧ n ≤ 102 then some (n - 87)
  else if 65 ≤ n ∧ n ≤ 70 then some (n - 55)
  else none

/-- Four hexadecimal digits and what follows them. -/
def hex4 : List Char → Option (Nat × List Char)
  | a :: b :: c :: d :: rest =>
      match hexVal a, hexVal b, hexVal c, hexVal d with
      | some x, some y, some z, some t => some (((x * 16 + y) * 16 + z) * 16 + t, rest)
      | _, _, _, _ => none
  | _ => none

/-- The character a one-letter escape stands for. -/
def simpleEscape (c : Char) : Option Char :=
  if c = dquote then some dquote
  else if c = backslash then some backslash
  else if c = '/' then some '/'
  else if c = 'b' then some (Char.ofNat 8)
  else if c = 'f' then some (Char.ofNat 12)
  else if c = 'n' then some (Char.ofNat 10)
  else if c = 'r' then some (Char.ofNat 13)
  else if c = 't' then some (Char.ofNat 9)
  else none

/-- Read the body of a string literal up to the closing quote, which must end the
text.  `acc` holds the characters read so far, last first; `fuel` bounds the number
of steps and the length of the text suffices. -/
def unquote : Nat → List Char → List Char → Except String (List Char)
  | 0, _, _ => .error "unexpected end of JSON input"
  | _ + 1, [], _ => .error "unexpected end of JSON input"
  | fuel + 1, c :: rest, acc =>
      if c = dquote then
        if rest = [] then .ok acc.reverse
        else .error "invalid character after top-level value"
      else if c = backslash then
        match rest with
        | [] => .error "unexpected end of JSON input"
        | e :: rest1 =>
            if e = 'u' then
              match hex4 rest1 with
              | none => .error "invalid character in \\u hexadecimal character escape"
              | some (hi, rest2) =>
                  if 55296 ≤ hi ∧ hi < 56320 then
                    match rest2 with
                    | b :: u :: rest3 =>
                        match (if b = backslash ∧ u = 'u' then hex4 rest3 else none) with
                        | some (lo, rest4) =>
                            if 56320 ≤ lo ∧ lo < 57344 then
                              unquote fuel rest4
                                (Char.ofNat (65536 + (hi - 55296) * 1024 + (lo - 56320)) :: acc)
                            else unquote fuel rest2 (Char.ofNat 65533 :: acc)
                        | none => unquote fuel rest2 (Char.ofNat 65533 :: acc)
                    | _ => unquote fuel rest2 (Char.ofNat 65533 :: acc)
                  else if 56320 ≤ hi ∧ hi < 57344 then
                    unquote fuel rest2 (Char.ofNat 65533 :: acc)
                  else unquote fuel rest2 (Char.ofNat hi :: acc)
            else
              match simpleEscape e with
              | some x => unquote fuel rest1 (x :: acc)
              | none => .error "invalid character in string escape code"
      else if c.toNat < 32 then .error "invalid character in string literal"
      else unquote fuel rest (c :: acc)

/-- The function `json.Unmarshal` into a `*interface{}`, for the texts whose value is
in the universe `Dyn`. -/
def jsonUnmarshal (b : String) : Except String (Option Dyn) :=
  let cs := trimSpace b.data
  if cs = ['n', 'u', 'l', 'l'] then .ok none
  else if cs = ['t', 'r', 'u', 'e'] then .ok (some (.bool true))
  else if cs = ['f', 'a', 'l', 's', 'e'] then .ok (some (.bool false))
  else
    match cs with
    | [] => .error "unexpected end of JSON input"
    | c :: rest =>
        if c = dquote then
          match unquote (rest.length + 1) rest [] with
          | .ok s => .ok (some (.str (String.mk s)))
          | .error m => .error m
        else .error "invalid character looking for beginning of value"

/-- The argument encoder of go-redis (`proto.Writer.WriteArg`) on the universe `Dyn`:
`nil` is the empty string, a string goes as it is, a boolean as `1` or `0`, anything
else is refused. -/
def redisAppendArg : Option Dyn → Except String String
  | none => .ok ""
  | some (.str s) => .ok s
  | some (.bool true) => .ok "1"
  | some (.bool false) => .ok "0"
  | some .func => .error "redis: can't marshal func() (implement encoding.BinaryMarshaler)"

/-- The serializer and argument encoder over `Dyn`. -/
def goCodec : Codec Dyn :=
  ⟨jsonMarshal, jsonUnmarshal, redisAppendArg⟩

/-- A network without faults. -/
def quiet : Nat → Option String := fun _ => none

/-- A fresh server behind a network without faults. -/
def fresh : World := ⟨fun _ => none, quiet, 0, []⟩

/-- A network whose round trip number `n` times out. -/
def faultAt (n : Nat) : Nat → Option String :=
  fun i => if i = n then some "i/o timeout" else none

/-- A fresh server behind a network whose round trip number `n` times out. -/
def freshFaulty (n : Nat) : World := ⟨fun _ => none, faultAt n, 0, []⟩

/-- A producer of the string `v`. -/
def produce (v : String) : Unit → Option Dyn := fun _ => some (.str v)

/-- The string `s` as a Go value. -/
def text (s : String) : Option Dyn := some (.str s)

/-- A server holding the JSON string `x` under the key `a` and nothing else. -/
def oneKey : World :=
  ⟨fun k => if k = "a" then some (.str "\"x\"" none) else none, quiet, 0, []⟩

/-- A producer of the `nil` interface. -/
def produceNil : Unit → Option Dyn := fun _ => none

end Cache

/-! ## `str/str.go` -/

namespace Str

/-- A Go string: its bytes, each below 256. -/
abbrev GoString := List Nat

/-- The rune `utf8.RuneError`. -/
def RuneError : Nat := 65533

/-- The rune `unicode.MaxRune`. -/
def MaxRune : Nat := 1114111

/-- The conversion `string(r)` of a rune: its UTF-8 encoding, that of `RuneError` for
a surrogate or a value beyond `MaxRune`. -/
def encodeRune (r : Nat) : GoString :=
  if r < 128 then [r]
  else if r < 2048 then [192 + r / 64, 128 + r % 64]
  else if (55296 ≤ r ∧ r < 57344) ∨ MaxRune < r then [239, 191, 189]
  else if r < 65536 then [224 + r / 4096, 128 + r / 64 % 64, 128 + r % 64]
  else [240 + r / 262144, 128 + r / 4096 % 64, 128 + r / 64 % 64, 128 + r % 64]

/-- A UTF-8 continuation byte. -/
def isCont (b : Nat) : Bool := 128 ≤ b && b < 192

/-- The first rune of a string and its width in bytes, as `range` over a string
yields it (`utf8.DecodeRuneInString`): an ill-formed sequence gives `RuneError` of
width one. -/
def decodeRune : GoString → Nat × Nat
  | [] => (RuneError, 0)
  | b0 :: rest =>
      if b0 < 128 then (b0, 1)
      else if 194 ≤ b0 ∧ b0 < 224 then
        match rest with
        | b1 :: _ =>
            if isCont b1 then ((b0 - 192) * 64 + (b1 - 128), 2) else (RuneError, 1)
        | _ => (RuneError, 1)
      else if 224 ≤ b0 ∧ b0 < 240 then
        match rest with
        | b1 :: b2 :: _ =>
            if (if b0 = 224 then 160 else 128) ≤ b1 ∧ b1 ≤ (if b0 = 237 then 159 else 191)
                ∧ isCont b2 then
              ((b0 - 224) * 4096 + (b1 - 128) * 64 + (b2 - 128), 3)
            else (RuneError, 1)
        | _ => (RuneError, 1)
      else if 240 ≤ b0 ∧ b0 < 245 then
        match rest with
        | b1 :: b2 :: b3 :: _ =>
            if (if b0 = 240 then 144 else 128) ≤ b1 ∧ b1 ≤ (if b0 = 244 then 143 else 191)
                ∧ isCont b2 ∧ isCont b3 then
              ((b0 - 240) * 262144 + (b1 - 128) * 4096 + (b2 - 128) * 64 + (b3 - 128), 4)
            else (RuneError, 1)
        | _ => (RuneError, 1)
      else (RuneError, 1)

/-- Go `unicode.ToLower`: the ASCII letters directly, every other rune through the
case table of the `unicode` package, here the parameter `table`. -/
def ToLower (table : Nat → Nat) (r : Nat) : Nat :=
  if r ≤ 127 then
    if 65 ≤ r ∧ r ≤ 90 then r + 32 else r
  else table r

/-- Go `func LCFirst(str string) string`.  The loop body runs for the first rune `v`
only; the slice `str[len(u):]` panics when `len(u)` exceeds `len(str)`, which is the
result `none`. -/
def LCFirst (table : Nat → Nat) (str : GoString) : Option GoString :=
  match str with
  | [] => some []
  | _ :: _ =>
      let v := (decodeRune str).1
      let u := encodeRune (ToLower table v)
      if u.length ≤ str.length then some (u ++ str.drop u.length)
      else none

/-- The UTF-8 encoding of a sequence of runes. -/
def encodeRunes (rs : List Nat) : GoString :=
  rs.flatMap encodeRune

/-- Rows of the lower-case mapping of `unicode.CaseRanges`
(`00C0..00D6 +32`, `0130 -199`, `023A +10795`, `212A -8383`); the identity on every
other rune. -/
def lowerRows (r : Nat) : Nat :=
  if 192 ≤ r ∧ r ≤ 214 then r + 32
  else if r = 304 then 105
  else if r = 570 then 11365
  else if r = 8490 then 107
  else r

end Str

/-! ## Theorems: the value store adapter -/

namespace Cache

open GRedis

variable {V : Type}

theorem poolGet_snd (w : World) (key : String) :
    (poolGet w key).2 = w.step (.cmd (.get key)) w.data := by
  unfold poolGet
  cases w.net w.tick <;> rfl

theorem Get_snd (c : Codec V) (w : World) (key : String) :
    (Get c w key).2 = w.step (.cmd (.get key)) w.data := by
  unfold Get
  simp only [poolGet_snd]
  cases (poolGet w key).1 with
  | error e => by_cases h : e = .redisNil <;> simp [h]
  | ok b => cases h : c.unmarshal b <;> simp [h]

/-- A read that meets no transport fault and finds the payload `b` decodes it. -/
theorem Get_of_payload (c : Codec V) (w : World) (key b : String) (t : Option Duration)
    (hnet : w.net w.tick = none) (hd : w.data key = some (.str b t)) :
    (Get c w key).1 =
      match c.unmarshal b with
      | .error m => .error (.decoding m)
      | .ok v => .ok v := by
  simp only [Get, poolGet, hnet, Store.get, hd]
  cases c.unmarshal b <;> rfl

/-- A read that meets no transport fault and finds no entry is a cache miss. -/
theorem Get_of_absent (c : Codec V) (w : World) (key : String)
    (hnet : w.net w.tick = none) (hd : w.data key = none) :
    (Get c w key).1 = .error .cacheMiss := by
  simp [Get, poolGet, hnet, Store.get, hd]

/-- A successful `Set` wrote the encoding of the value in one round trip. -/
theorem Set_ok (c : Codec V) (w : World) (key : String) (v : Option V) (ttl : Duration)
    (h : (GRedis.Set c w key v ttl).1 = none) :
    ∃ b, c.marshal v = .ok b ∧ w.net w.tick = none ∧
      (GRedis.Set c w key v ttl).2 = w.step (.cmd (.set key b ttl)) (w.data.set key b ttl) := by
  unfold GRedis.Set at h ⊢
  cases hm : c.marshal v with
  | error m => simp [hm] at h
  | ok b =>
      simp only [hm] at h ⊢
      unfold poolSet at h ⊢
      cases hn : w.net w.tick with
      | some m => simp [hn] at h
      | none => exact ⟨b, rfl, rfl, rfl⟩

/-- A failed `Set` left the key space as it was. -/
theorem Set_fail_data (c : Codec V) (w : World) (key : String) (v : Option V) (ttl : Duration)
    (e : Err) (h : (GRedis.Set c w key v ttl).1 = some e) :
    (GRedis.Set c w key v ttl).2.data = w.data := by
  unfold GRedis.Set at h ⊢
  cases hm : c.marshal v with
  | error m => rfl
  | ok b =>
      simp only [hm] at h ⊢
      unfold poolSet at h ⊢
      cases hn : w.net w.tick with
      | some m => rfl
      | none => simp [hn] at h

theorem Store.set_same (d : Store) (key b : String) (ttl : Duration) :
    ∃ t, d.set key b ttl key = some (.str b t) := by
  unfold Store.set Store.put
  split
  · exact ⟨some ttl, by simp⟩
  · split
    · exact ⟨(d key).bind Entry.ttl, by simp⟩
    · exact ⟨none, by simp⟩

/-- The compute path of `Remember`, entered after a miss or a null hit: what it
returns and what it leaves behind when the write-back succeeds. -/
theorem Remember_compute (c : Codec V) (w : World) (k : String) (ttl : Duration)
    (p : Unit → Option V)
    (hget : (Get c w k).1 = .error .cacheMiss ∨ (Get c w k).1 = .ok none)
    (hset : (GRedis.Set c (Get c w k).2.called k (p ()) ttl).1 = none) :
    ∃ b, c.marshal (p ()) = .ok b ∧
      (Remember c w k ttl p).1 =
        .returned (p (), match (Get c w k).1 with
                         | .ok _ => none
                         | .error e => some e) ∧
      (Remember c w k ttl p).2 =
        (Get c w k).2.called.step (.cmd (.set k b ttl)) ((Get c w k).2.called.data.set k b ttl) := by
  obtain ⟨b, hb, -, hw⟩ := Set_ok c _ k (p ()) ttl hset
  refine ⟨b, hb, ?_, ?_⟩
  · rcases hget with hg | hg <;> simp [Remember, hg, Put, hset]
  · rcases hget with hg | hg <;> simp [Remember, hg, Put, hset, hw]

/-- The hit path of `Remember`: a read that decodes to a non-null value is returned
as it is and nothing else happens. -/
theorem Remember_hit (c : Codec V) (w : World) (k : String) (ttl : Duration)
    (p : Unit → Option V) (v : V) (hg : (Get c w k).1 = .ok (some v)) :
    Remember c w k ttl p = (.returned (some v, none), w.step (.cmd (.get k)) w.data) := by
  simp [Remember, hg, Get_snd]

/-- After the compute path of `Remember` with a successful write-back, the key holds
the encoding of the produced value, and a following read that meets no transport
fault decodes it to that value when the serializer round-trips it. -/
theorem Remember_stored (c : Codec V) (w : World) (k : String) (ttl : Duration)
    (p : Unit → Option V)
    (hget : (Get c w k).1 = .error .cacheMiss ∨ (Get c w k).1 = .ok none)
    (hset : (GRedis.Set c (Get c w k).2.called k (p ()) ttl).1 = none)
    (hrt : ∀ b, c.marshal (p ()) = .ok b → c.unmarshal b = .ok (p ()))
    (hnext : (Remember c w k ttl p).2.net (Remember c w k ttl p).2.tick = none) :
    ∃ b, c.marshal (p ()) = .ok b ∧
      (Remember c w k ttl p).2.data = w.data.set k b ttl ∧
      (Get c (Remember c w k ttl p).2 k).1 = .ok (p ()) := by
  obtain ⟨b, hb, -, hw⟩ := Remember_compute c w k ttl p hget hset
  have hdata : (Remember c w k ttl p).2.data = w.data.set k b ttl := by
    rw [hw, Get_snd]; rfl
  refine ⟨b, hb, hdata, ?_⟩
  obtain ⟨t, ht⟩ := Store.set_same w.data k b ttl
  rw [Get_of_payload c _ k b t hnext (by rw [hdata]; exact ht), hrt b hb]

/-! ## Theorems: the cache-aside orchestrator -/

/-- C1: when the lookup of `Remember(k, ttl, p)` is a cache miss or a hit that decodes
to null and the write-back succeeds, the producer runs exactly once (the trace gains
the read, one call and one `SET`), the encoding of its value `V` is written under `k`
with expiration `ttl`, `V` is the returned value, and a following `Get(k)` that meets
no transport fault yields `V` provided the serializer round-trips `V`. -/
theorem Remember_populates (c : Codec V) (w : World) (k : String) (ttl : Duration)
    (p : Unit → Option V)
    (hget : (Get c w k).1 = .error .cacheMiss ∨ (Get c w k).1 = .ok none)
    (hset : (GRedis.Set c (Get c w k).2.called k (p ()) ttl).1 = none)
    (hrt : ∀ b, c.marshal (p ()) = .ok b → c.unmarshal b = .ok (p ()))
    (hnext : (Remember c w k ttl p).2.net (Remember c w k ttl p).2.tick = none) :
    ∃ b, c.marshal (p ()) = .ok b ∧
      (∃ e, (Remember c w k ttl p).1 = .returned (p (), e)) ∧
      (Remember c w k ttl p).2.log = w.log ++ [.cmd (.get k), .call, .cmd (.set k b ttl)] ∧
      (Remember c w k ttl p).2.data = w.data.set k b ttl ∧
      (Get c (Remember c w k ttl p).2 k).1 = .ok (p ()) := by
  obtain ⟨b, hb, hr, hw⟩ := Remember_compute c w k ttl p hget hset
  obtain ⟨b2, hb2, hdata, hg⟩ := Remember_stored c w k ttl p hget hset hrt hnext
  have hbb : b2 = b := by
    rw [hb] at hb2
    exact (Except.ok.inj hb2).symm
  subst hbb
  refine ⟨b2, hb, ⟨_, hr⟩, ?_, hdata, hg⟩
  rw [hw, Get_snd]
  simp [World.step, World.called]

theorem Remember_populates_witness :
    ∃ b, goCodec.marshal (produce "v" ()) = .ok b ∧
      (∃ e, (Remember goCodec fresh "k" 5 (produce "v")).1 = .returned (produce "v" (), e)) ∧
      (Remember goCodec fresh "k" 5 (produce "v")).2.log
        = fresh.log ++ [.cmd (.get "k"), .call, .cmd (.set "k" b 5)] ∧
      (Remember goCodec fresh "k" 5 (produce "v")).2.data = fresh.data.set "k" b 5 ∧
      (Get goCodec (Remember goCodec fresh "k" 5 (produce "v")).2 "k").1
        = .ok (produce "v" ()) :=
  Remember_populates goCodec fresh "k" 5 (produce "v") (by decide) (by decide)
    (by intro b hb; cases hb; decide) (by decide)

/-- C2, counterexample: a producer whose value is null.  The first `Remember` computes
and stores it (payload `null`); the second one reads a null hit, so it invokes its own
producer, writes again and returns that producer's value. -/
theorem Remember_null_recomputes :
    (Remember goCodec fresh "k" 5 produceNil).1 = .returned (none, some .cacheMiss) ∧
    (Remember goCodec fresh "k" 5 produceNil).2.data "k" = some (.str "null" (some 5)) ∧
    (Remember goCodec (Remember goCodec fresh "k" 5 produceNil).2 "k" 5 (produce "x")).1
      = .returned (some (.str "x"), none) ∧
    (Remember goCodec (Remember goCodec fresh "k" 5 produceNil).2 "k" 5 (produce "x")).2.log
      = (Remember goCodec fresh "k" 5 produceNil).2.log
          ++ [.cmd (.get "k"), .call, .cmd (.set "k" "\"x\"" 5)] := by
  decide

/-- C2, amended: after a first `Remember(k, ttl, p)` that computed and stored a
non-null value `v` which the serializer round-trips, a second `Remember(k, ttl, p2)`
whose read meets no transport fault returns `v` with a nil error, never invokes `p2`
(the trace gains the read only) and leaves the key space as it was. -/
theorem Remember_hit_short_circuits (c : Codec V) (w : World) (k : String) (ttl : Duration)
    (p p2 : Unit → Option V) (v : V)
    (hget : (Get c w k).1 = .error .cacheMiss ∨ (Get c w k).1 = .ok none)
    (hset : (GRedis.Set c (Get c w k).2.called k (p ()) ttl).1 = none)
    (hv : p () = some v)
    (hrt : ∀ b, c.marshal (p ()) = .ok b → c.unmarshal b = .ok (p ()))
    (hnext : (Remember c w k ttl p).2.net (Remember c w k ttl p).2.tick = none) :
    (Remember c (Remember c w k ttl p).2 k ttl p2).1 = .returned (some v, none) ∧
    (Remember c (Remember c w k ttl p).2 k ttl p2).2.log
      = (Remember c w k ttl p).2.log ++ [.cmd (.get k)] ∧
    (Remember c (Remember c w k ttl p).2 k ttl p2).2.data = (Remember c w k ttl p).2.data := by
  obtain ⟨b, hb, -, hg⟩ := Remember_stored c w k ttl p hget hset hrt hnext
  rw [hv] at hg
  rw [Remember_hit c _ k ttl p2 v hg]
  exact ⟨rfl, rfl, rfl⟩

theorem Remember_hit_short_circuits_witness :
    (Remember goCodec (Remember goCodec fresh "k" 5 (produce "v")).2 "k" 5 (produce "x")).1
      = .returned (some (.str "v"), none) ∧
    (Remember goCodec (Remember goCodec fresh "k" 5 (produce "v")).2 "k" 5 (produce "x")).2.log
      = (Remember goCodec fresh "k" 5 (produce "v")).2.log ++ [.cmd (.get "k")] ∧
    (Remember goCodec (Remember goCodec fresh "k" 5 (produce "v")).2 "k" 5 (produce "x")).2.data
      = (Remember goCodec fresh "k" 5 (produce "v")).2.data :=
  Remember_hit_short_circuits goCodec fresh "k" 5 (produce "v") (produce "x") (.str "v")
    (by decide) (by decide) rfl (by intro b hb; cases hb; decide) (by decide)

/-- C3: when `Get(key)` fails with an error other than `ErrCacheMiss`, `Remember`
returns a nil value with exactly that error, the producer is not invoked and no write
is issued: the trace gains the read only and the key space is as it was. -/
theorem Remember_read_fault (c : Codec V) (w : World) (k : String) (ttl : Duration)
    (p : Unit → Option V) (e : Err)
    (hget : (Get c w k).1 = .error e) (hne : e ≠ .cacheMiss) :
    (Remember c w k ttl p).1 = .returned (none, some e) ∧
    (Remember c w k ttl p).2.log = w.log ++ [.cmd (.get k)] ∧
    (Remember c w k ttl p).2.data = w.data := by
  refine ⟨?_, ?_, ?_⟩
  · simp [Remember, hget, hne]
  · simp [Remember, hget, hne, Get_snd, World.step]
  · simp [Remember, hget, hne, Get_snd, World.step]

theorem Remember_read_fault_witness :
    (Remember goCodec (freshFaulty 0) "k" 5 (produce "v")).1
      = .returned (none, some (.transport "i/o timeout")) ∧
    (Remember goCodec (freshFaulty 0) "k" 5 (produce "v")).2.log
      = (freshFaulty 0).log ++ [.cmd (.get "k")] ∧
    (Remember goCodec (freshFaulty 0) "k" 5 (produce "v")).2.data = (freshFaulty 0).data :=
  Remember_read_fault goCodec (freshFaulty 0) "k" 5 (produce "v") (.transport "i/o timeout")
    (by decide) (by decide)

/-- C4, counterexample: the lookup is a cache miss and the `SET` of the write-back
times out.  `Remember` does not return: `Put` panics with the error of `Set`. -/
theorem Remember_write_fault_panics :
    (Get goCodec (freshFaulty 1) "k").1 = .error .cacheMiss ∧
    (GRedis.Set goCodec (Get goCodec (freshFaulty 1) "k").2.called "k" (produce "v" ()) 5).1
      = some (.transport "i/o timeout") ∧
    (Remember goCodec (freshFaulty 1) "k" 5 (produce "v")).1
      = .panicked (.err (.transport "i/o timeout")) ∧
    ¬ ∃ r, (Remember goCodec (freshFaulty 1) "k" 5 (produce "v")).1 = .returned r := by
  refine ⟨by decide, by decide, by decide, ?_⟩
  rintro ⟨r, hr⟩
  have h : (Remember goCodec (freshFaulty 1) "k" 5 (produce "v")).1
      = .panicked (.err (.transport "i/o timeout")) := by decide
  rw [h] at hr
  cases hr

/-- C4, amended: when the lookup is a cache miss or a null hit and the `Set` of the
produced value fails with the error `e` (encoding or store error), `Remember` does not
return; it panics with `e` as the panic value, and the key space is as it was. -/
theorem Remember_write_fault (c : Codec V) (w : World) (k : String) (ttl : Duration)
    (p : Unit → Option V) (e : Err)
    (hget : (Get c w k).1 = .error .cacheMiss ∨ (Get c w k).1 = .ok none)
    (hset : (GRedis.Set c (Get c w k).2.called k (p ()) ttl).1 = some e) :
    (Remember c w k ttl p).1 = .panicked (.err e) ∧
    (Remember c w k ttl p).2.data = w.data := by
  have hd := Set_fail_data c _ k (p ()) ttl e hset
  refine ⟨?_, ?_⟩
  · rcases hget with hg | hg <;> simp [Remember, hg, Put, hset]
  · have hw : (Get c w k).2.called.data = w.data := by rw [Get_snd]; rfl
    rcases hget with hg | hg <;> simp [Remember, hg, Put, hset, hd, hw]

theorem Remember_write_fault_witness :
    (Remember goCodec fresh "k" 5 (fun _ => some Dyn.func)).1
      = .panicked (.err (.encoding "json: unsupported type: func()")) ∧
    (Remember goCodec fresh "k" 5 (fun _ => some Dyn.func)).2.data = fresh.data :=
  Remember_write_fault goCodec fresh "k" 5 (fun _ => some Dyn.func)
    (.encoding "json: unsupported type: func()") (by decide) (by decide)

/-- C5, counterexample: on a fresh key with a successful write-back `Remember` returns
the produced value together with `ErrCacheMiss`, not with a nil error. -/
theorem Remember_miss_returns_ErrCacheMiss :
    (Get goCodec fresh "k").1 = .error .cacheMiss ∧
    (GRedis.Set goCodec (Get goCodec fresh "k").2.called "k" (produce "v" ()) 5).1 = none ∧
    (Remember goCodec fresh "k" 5 (produce "v")).1
      = .returned (some (.str "v"), some .cacheMiss) ∧
    (Remember goCodec fresh "k" 5 (produce "v")).1 ≠ .returned (some (.str "v"), none) := by
  decide

/-- C5, amended: when `Get(key)` fails with `ErrCacheMiss` and the write-back succeeds,
`Remember` returns normally with the produced value, and the error it returns next to
that value is the `ErrCacheMiss` of the lookup. -/
theorem Remember_miss_done (c : Codec V) (w : World) (k : String) (ttl : Duration)
    (p : Unit → Option V)
    (hget : (Get c w k).1 = .error .cacheMiss)
    (hset : (GRedis.Set c (Get c w k).2.called k (p ()) ttl).1 = none) :
    (Remember c w k ttl p).1 = .returned (p (), some .cacheMiss) := by
  obtain ⟨b, -, hr, -⟩ := Remember_compute c w k ttl p (Or.inl hget) hset
  rw [hr, hget]

theorem Remember_miss_done_witness :
    (Remember goCodec fresh "k" 5 (produce "v")).1
      = .returned (produce "v" (), some .cacheMiss) :=
  Remember_miss_done goCodec fresh "k" 5 (produce "v") (by decide) (by decide)

/-! ## Theorems: the tag index -/

theorem Store.put_same (d : Store) (key : String) (e : Option Entry) :
    d.put key e key = e := by
  simp [Store.put]

theorem Store.put_other (d : Store) (key t : String) (e : Option Entry) (h : t ≠ key) :
    d.put key e t = d t := by
  simp [Store.put, h]

/-- Whatever a queued command does, a member of the set at `t` afterwards was a member
before or is the member that very command added with `SADD t`. -/
theorem members_applyCmd (c : Cmd) (d : Store) (t x : String)
    (h : x ∈ members ((applyCmd c d).1 t)) : x ∈ members (d t) ∨ c = .sadd t x := by
  cases c with
  | get k => simp only [applyCmd] at h; cases hg : d.get k <;> simp [hg] at h <;> exact Or.inl h
  | mget ks => simp only [applyCmd] at h; cases hg : d.mget ks <;> simp [hg] at h <;> exact Or.inl h
  | smembers k =>
      simp only [applyCmd] at h; cases hg : d.smembers k <;> simp [hg] at h <;> exact Or.inl h
  | set k b e =>
      left
      simp only [applyCmd, Store.set] at h
      by_cases htk : t = k
      · subst htk
        split at h
        · simp [Store.put, members] at h
        · split at h <;> simp [Store.put, members] at h
      · split at h
        · simpa [Store.put, htk] using h
        · split at h <;> simpa [Store.put, htk] using h
  | del ks =>
      left
      simp only [applyCmd, Store.del] at h
      by_cases hks : ks = []
      · simpa [hks] using h
      · simp only [hks, if_false] at h
        by_cases htk : t ∈ ks
        · simp [htk, members] at h
        · simpa [htk] using h
  | expire k e =>
      left
      simp only [applyCmd, Store.expire] at h
      by_cases htk : t = k
      · subst htk
        cases hd : d t with
        | none => simpa [hd] using h
        | some en =>
            cases en with
            | str b t0 =>
                simp only [hd] at h
                split at h <;> simp [Store.put, members] at h
            | set ms t0 =>
                simp only [hd] at h
                split at h
                · simp [Store.put, members] at h
                · simpa [Store.put, members] using h
      · cases hd : d k with
        | none => simpa [hd] using h
        | some en =>
            cases en <;> simp only [hd] at h <;> split at h <;>
              simpa [Store.put, htk] using h
  | sadd k m =>
      simp only [applyCmd, Store.sadd] at h
      by_cases htk : t = k
      · subst htk
        cases hd : d t with
        | none =>
            simp [hd, Store.put, members] at h
            right; rw [h]
        | some en =>
            cases en with
            | str b t0 => simp only [hd] at h; left; simpa [hd] using h
            | set ms t0 =>
                simp only [hd] at h
                by_cases hm : m ∈ ms
                · simp [Store.put, members, hm] at h
                  left; simpa [members] using h
                · simp [Store.put, members, hm] at h
                  rcases h with h | h
                  · left; simpa [members] using h
                  · right; rw [h]
      · left
        cases hd : d k with
        | none => simpa [hd, Store.put, htk] using h
        | some en =>
            cases en <;> simp only [hd] at h <;> simpa [Store.put, htk] using h

theorem members_execAll (cs : List Cmd) (d : Store) (t x : String)
    (h : x ∈ members ((execAll cs d).1 t)) : x ∈ members (d t) ∨ Cmd.sadd t x ∈ cs := by
  induction cs generalizing d with
  | nil => exact Or.inl h
  | cons c cs ih =>
      simp only [execAll] at h
      rcases ih _ h with h1 | h1
      · rcases members_applyCmd c d t x h1 with h2 | h2
        · exact Or.inl h2
        · exact Or.inr (by simp [h2])
      · exact Or.inr (by simp [h1])

theorem execAll_append_fst (cs cs2 : List Cmd) (d : Store) :
    (execAll (cs ++ cs2) d).1 = (execAll cs2 (execAll cs d).1).1 := by
  induction cs generalizing d with
  | nil => rfl
  | cons c cs ih =>
      show (execAll (cs ++ cs2) (applyCmd c d).1).1 = _
      rw [ih]
      rfl

theorem sadd_mem_tagCmds (key : String) (ttl : Duration) (tags : List String) (t x : String) :
    Cmd.sadd t x ∈ tagCmds key ttl tags ↔ x = key ∧ t ∈ tags := by
  induction tags with
  | nil => simp [tagCmds]
  | cons tag rest ih =>
      simp only [tagCmds, List.mem_cons, ih, Cmd.sadd.injEq]
      constructor
      · rintro (⟨h1, h2⟩ | h | ⟨h1, h2⟩)
        · exact ⟨h2, Or.inl h1⟩
        · cases h
        · exact ⟨h1, Or.inr h2⟩
      · rintro ⟨h1, h2 | h2⟩
        · exact Or.inl ⟨h2, h1⟩
        · exact Or.inr (Or.inr ⟨h1, h2⟩)

/-- The key space after `SetByTags`, whether it succeeded or not: as before, or the
result of the queued commands. -/
theorem SetByTags_data (c : Codec V) (w : World) (key : String) (v : Option V)
    (tags : List String) (ttl : Duration) :
    (SetByTags c w key v tags ttl).2.data = w.data ∨
    ∃ b, c.appendArg v = .ok b ∧
      (SetByTags c w key v tags ttl).2.data
        = (execAll (tagCmds key ttl tags ++ [.set key b ttl]) w.data).1 := by
  unfold SetByTags
  cases hb : c.appendArg v with
  | error m => exact Or.inl rfl
  | ok b =>
      unfold poolExec
      cases hn : w.net w.tick with
      | some m => exact Or.inl rfl
      | none => exact Or.inr ⟨b, rfl, rfl⟩

/-- A successful `SetByTags` ran its transaction in one round trip and no queued
command was refused. -/
theorem SetByTags_ok (c : Codec V) (w : World) (key : String) (v : Option V)
    (tags : List String) (ttl : Duration) (h : (SetByTags c w key v tags ttl).1 = none) :
    ∃ b, c.appendArg v = .ok b ∧ w.net w.tick = none ∧
      (execAll (tagCmds key ttl tags ++ [.set key b ttl]) w.data).2 = none ∧
      (SetByTags c w key v tags ttl).2
        = w.step (.tx (tagCmds key ttl tags ++ [.set key b ttl]))
            (execAll (tagCmds key ttl tags ++ [.set key b ttl]) w.data).1 := by
  unfold SetByTags at h ⊢
  cases hb : c.appendArg v with
  | error m => simp [hb] at h
  | ok b =>
      simp only [hb] at h ⊢
      unfold poolExec at h ⊢
      cases hn : w.net w.tick with
      | some m => simp [hn] at h
      | none =>
          simp only [hn] at h
          exact ⟨b, rfl, rfl, h, rfl⟩

/-- After `SetByTags` a member of the set at `t` was a member before or is the key
just written, `t` being one of its tags. -/
theorem members_SetByTags (c : Codec V) (w : World) (key : String) (v : Option V)
    (tags : List String) (ttl : Duration) (t x : String)
    (h : x ∈ members ((SetByTags c w key v tags ttl).2.data t)) :
    x ∈ members (w.data t) ∨ (x = key ∧ t ∈ tags) := by
  rcases SetByTags_data c w key v tags ttl with hd | ⟨b, -, hd⟩
  · rw [hd] at h; exact Or.inl h
  · rw [hd] at h
    rcases members_execAll _ _ t x h with h1 | h1
    · exact Or.inl h1
    · right
      simp only [List.mem_append, List.mem_singleton] at h1
      rcases h1 with h1 | h1
      · exact (sadd_mem_tagCmds key ttl tags t x).1 h1
      · cases h1

/-- The loop of `Invalidate` changes no entry, and every key it collects was given,
is one of the tags, or is a member of the set stored under one of the tags. -/
theorem collectKeys_spec (tags : List String) (w : World) (keys : List String) :
    (collectKeys tags w keys).2.data = w.data ∧
    ∀ x ∈ (collectKeys tags w keys).1,
      x ∈ keys ∨ x ∈ tags ∨ ∃ t ∈ tags, x ∈ members (w.data t) := by
  induction tags generalizing w keys with
  | nil => exact ⟨rfl, fun x hx => Or.inl hx⟩
  | cons tag rest ih =>
      have hw : (poolSMembers w tag).2.data = w.data := by
        unfold poolSMembers; cases w.net w.tick <;> rfl
      have hk : ∀ x ∈ (match (poolSMembers w tag).1 with
                        | .ok ms => ms
                        | .error _ => ([] : List String)), x ∈ members (w.data tag) := by
        intro x hx
        unfold poolSMembers at hx
        cases hn : w.net w.tick with
        | some m => simp [hn] at hx
        | none =>
            simp only [hn, Store.smembers] at hx
            cases hd : w.data tag with
            | none => simp [hd] at hx
            | some en =>
                cases en with
                | str b t0 => simp [hd] at hx
                | set ms t0 => simpa [hd, members] using hx
      simp only [collectKeys]
      obtain ⟨h1, h2⟩ := ih (poolSMembers w tag).2
        ((keys ++ [tag]) ++ (match (poolSMembers w tag).1 with
                             | .ok ms => ms
                             | .error _ => ([] : List String)))
      refine ⟨h1.trans hw, fun x hx => ?_⟩
      rcases h2 x hx with h3 | h3 | ⟨t, ht, h3⟩
      · simp only [List.mem_append, List.mem_singleton] at h3
        rcases h3 with (h3 | h3) | h3
        · exact Or.inl h3
        · exact Or.inr (Or.inl (by simp [h3]))
        · exact Or.inr (Or.inr ⟨tag, by simp, hk x h3⟩)
      · exact Or.inr (Or.inl (by simp [h3]))
      · rw [hw] at h3
        exact Or.inr (Or.inr ⟨t, by simp [ht], h3⟩)

/-- The frame of `Invalidate`: an entry whose key is none of the given tags and no
member of the set stored under any of them is left as it was. -/
theorem Invalidate_other (w : World) (tags : List String) (k : String)
    (hk : k ∉ tags) (hm : ∀ t ∈ tags, k ∉ members (w.data t)) :
    (Invalidate w tags).data k = w.data k := by
  obtain ⟨h1, h2⟩ := collectKeys_spec tags w []
  have hnot : k ∉ (collectKeys tags w []).1 := by
    intro hx
    rcases h2 k hx with h | h | ⟨t, ht, h⟩
    · simp at h
    · exact hk h
    · exact hm t ht h
  unfold Invalidate poolDel
  simp only
  cases (collectKeys tags w []).2.net (collectKeys tags w []).2.tick with
  | some m => simp [World.step, h1]
  | none =>
      unfold Store.del
      by_cases he : (collectKeys tags w []).1 = []
      · simp [he, World.step, h1]
      · simp [he, World.step, h1, hnot]

/-- With no transport fault on its two round trips, `Invalidate([A])` deletes the key
`A` and every member of the set stored under `A`, and nothing else. -/
theorem Invalidate_single (w : World) (A k : String)
    (h0 : w.net w.tick = none) (h1 : w.net (w.tick + 1) = none) :
    (Invalidate w [A]).data k
      = if k = A ∨ k ∈ members (w.data A) then none else w.data k := by
  have hc : collectKeys [A] w [] = (A :: members (w.data A), w.step (.cmd (.smembers A)) w.data) := by
    simp only [collectKeys, poolSMembers, h0, Store.smembers]
    cases hd : w.data A with
    | none => simp [members]
    | some en => cases en <;> simp [members]
  unfold Invalidate
  simp only [hc, poolDel, World.step, h1, Store.del]
  simp

theorem members_sadd_self (d d1 : Store) (A m : String) (h : d.sadd A m = .ok d1) :
    m ∈ members (d1 A) := by
  unfold Store.sadd at h
  cases hd : d A with
  | none =>
      simp only [hd, Except.ok.injEq] at h
      rw [← h]; simp [Store.put, members]
  | some en =>
      cases en with
      | str b t0 => simp [hd] at h
      | set ms t0 =>
          simp only [hd, Except.ok.injEq] at h
          rw [← h]
          by_cases hm : m ∈ ms <;> simp [Store.put, members, hm]

theorem members_sadd_mono (d d1 : Store) (t m A x : String) (h : d.sadd t m = .ok d1)
    (hx : x ∈ members (d A)) : x ∈ members (d1 A) := by
  unfold Store.sadd at h
  by_cases hA : A = t
  · subst hA
    cases hd : d A with
    | none => simp [hd, members] at hx
    | some en =>
        cases en with
        | str b t0 => simp [hd] at h
        | set ms t0 =>
            simp only [hd, Except.ok.injEq] at h
            rw [hd] at hx
            rw [← h]
            by_cases hm : m ∈ ms
            · simpa [Store.put, members, hm] using hx
            · simp only [members] at hx
              simp [Store.put, members, hm, hx]
  · cases hd : d t with
    | none =>
        simp only [hd, Except.ok.injEq] at h
        rw [← h, Store.put_other _ _ _ _ hA]; exact hx
    | some en =>
        cases en with
        | str b t0 => simp [hd] at h
        | set ms t0 =>
            simp only [hd, Except.ok.injEq] at h
            rw [← h, Store.put_other _ _ _ _ hA]; exact hx

theorem members_expire (d : Store) (t A : String) (ttl : Duration) (h : 0 < ttl) :
    members ((d.expire t ttl) A) = members (d A) := by
  have hn : ¬ ttl ≤ 0 := not_le.mpr h
  unfold Store.expire
  by_cases hA : A = t
  · subst hA
    cases hd : d A with
    | none => simp [hd]
    | some en => cases en <;> simp [hn, Store.put, members]
  · cases hd : d t with
    | none => rfl
    | some en => cases en <;> simp [hn, Store.put, hA]

theorem Store.set_other (d : Store) (key b A : String) (ttl : Duration) (h : A ≠ key) :
    d.set key b ttl A = d A := by
  unfold Store.set
  split
  · exact Store.put_other _ _ _ _ h
  · split <;> exact Store.put_other _ _ _ _ h

theorem execAll_append_snd (cs cs2 : List Cmd) (d : Store)
    (h : (execAll (cs ++ cs2) d).2 = none) :
    (execAll cs d).2 = none ∧ (execAll cs2 (execAll cs d).1).2 = none := by
  induction cs generalizing d with
  | nil => exact ⟨rfl, h⟩
  | cons c cs ih =>
      have h' : (match (applyCmd c d).2 with
                 | some e => some e
                 | none => (execAll (cs ++ cs2) (applyCmd c d).1).2) = none := h
      cases hc : (applyCmd c d).2 with
      | some e => simp [hc] at h'
      | none =>
          simp only [hc] at h'
          obtain ⟨h1, h2⟩ := ih _ h'
          refine ⟨?_, h2⟩
          show (match (applyCmd c d).2 with
                | some e => some e
                | none => (execAll cs (applyCmd c d).1).2) = none
          simp only [hc]; exact h1

/-- The commands queued for the first tag, when the whole batch succeeds: the `SADD`
was accepted and the batch goes on from the key space after the `EXPIRE`. -/
theorem execAll_tagCmds_cons (key tag : String) (ttl : Duration) (rest : List String)
    (d : Store) (h : (execAll (tagCmds key ttl (tag :: rest)) d).2 = none) :
    ∃ d1, d.sadd tag key = .ok d1 ∧
      (execAll (tagCmds key ttl rest) (d1.expire tag ttl)).2 = none ∧
      (execAll (tagCmds key ttl (tag :: rest)) d).1
        = (execAll (tagCmds key ttl rest) (d1.expire tag ttl)).1 := by
  have hcmds : tagCmds key ttl (tag :: rest)
      = [Cmd.sadd tag key, Cmd.expire tag ttl] ++ tagCmds key ttl rest := rfl
  rw [hcmds] at h ⊢
  obtain ⟨hhead, hrest⟩ := execAll_append_snd _ _ d h
  rw [execAll_append_fst]
  cases hs : d.sadd tag key with
  | error e => simp [execAll, applyCmd, hs] at hhead
  | ok d1 =>
      have hd : (execAll [Cmd.sadd tag key, Cmd.expire tag ttl] d).1 = d1.expire tag ttl := by
        simp [execAll, applyCmd, hs]
      rw [hd] at hrest ⊢
      exact ⟨d1, rfl, hrest, rfl⟩

/-- When the commands queued for the tags all succeed, with a positive expiration, the
set at `A` keeps its members. -/
theorem execAll_tagCmds_mono (key A x : String) (ttl : Duration) (httl : 0 < ttl)
    (tags : List String) (d : Store) (h : (execAll (tagCmds key ttl tags) d).2 = none)
    (hx : x ∈ members (d A)) : x ∈ members ((execAll (tagCmds key ttl tags) d).1 A) := by
  induction tags generalizing d with
  | nil => exact hx
  | cons tag rest ih =>
      obtain ⟨d1, hs, hrest, hd⟩ := execAll_tagCmds_cons key tag ttl rest d h
      rw [hd]
      apply ih _ hrest
      rw [members_expire _ _ _ _ httl]
      exact members_sadd_mono d d1 tag key A x hs hx

/-- When the commands queued for the tags all succeed, with a positive expiration, the
set at each of the tags holds the key. -/
theorem execAll_tagCmds_gain (key A : String) (ttl : Duration) (httl : 0 < ttl)
    (tags : List String) (d : Store) (h : (execAll (tagCmds key ttl tags) d).2 = none)
    (hA : A ∈ tags) : key ∈ members ((execAll (tagCmds key ttl tags) d).1 A) := by
  induction tags generalizing d with
  | nil => simp at hA
  | cons tag rest ih =>
      obtain ⟨d1, hs, hrest, hd⟩ := execAll_tagCmds_cons key tag ttl rest d h
      rw [hd]
      rcases List.mem_cons.1 hA with hA | hA
      · subst hA
        apply execAll_tagCmds_mono key A key ttl httl rest _ hrest
        rw [members_expire _ _ _ _ httl]
        exact members_sadd_self d d1 A key hs
      · exact ih _ hrest hA

/-- A successful `SetByTags` with a positive expiration, of a key other than `A`:
the set at `A` keeps its members, and holds the key when `A` is one of the tags. -/
theorem SetByTags_ok_members (c : Codec V) (w : World) (key : String) (v : Option V)
    (tags : List String) (ttl : Duration) (A : String)
    (h : (SetByTags c w key v tags ttl).1 = none) (httl : 0 < ttl) (hk : key ≠ A) :
    (∀ x, x ∈ members (w.data A) → x ∈ members ((SetByTags c w key v tags ttl).2.data A)) ∧
    (A ∈ tags → key ∈ members ((SetByTags c w key v tags ttl).2.data A)) := by
  obtain ⟨b, -, -, hexec, hw⟩ := SetByTags_ok c w key v tags ttl h
  obtain ⟨htags, -⟩ := execAll_append_snd _ _ _ hexec
  have hdata : (SetByTags c w key v tags ttl).2.data A
      = (execAll (tagCmds key ttl tags) w.data).1 A := by
    rw [hw]
    show (execAll (tagCmds key ttl tags ++ [Cmd.set key b ttl]) w.data).1 A = _
    rw [execAll_append_fst]
    show ((execAll (tagCmds key ttl tags) w.data).1.set key b ttl) A = _
    exact Store.set_other _ _ _ _ _ (Ne.symm hk)
  rw [hdata]
  exact ⟨fun x hx => execAll_tagCmds_mono key A x ttl httl tags _ htags hx,
    fun hA => execAll_tagCmds_gain key A ttl httl tags _ htags hA⟩

/-- A successful `SetByTags` left under the key the payload the client made of the value. -/
theorem SetByTags_ok_entry (c : Codec V) (w : World) (key : String) (v : Option V)
    (tags : List String) (ttl : Duration) (h : (SetByTags c w key v tags ttl).1 = none) :
    ∃ b t, c.appendArg v = .ok b ∧
      (SetByTags c w key v tags ttl).2.data key = some (.str b t) := by
  obtain ⟨b, hb, -, -, hw⟩ := SetByTags_ok c w key v tags ttl h
  obtain ⟨t, ht⟩ := Store.set_same (execAll (tagCmds key ttl tags) w.data).1 key b ttl
  refine ⟨b, t, hb, ?_⟩
  rw [hw]
  show (execAll (tagCmds key ttl tags ++ [Cmd.set key b ttl]) w.data).1 key = _
  rw [execAll_append_fst]
  exact ht

theorem SetByTags_net (c : Codec V) (w : World) (key : String) (v : Option V)
    (tags : List String) (ttl : Duration) :
    (SetByTags c w key v tags ttl).2.net = w.net := by
  unfold SetByTags
  cases c.appendArg v with
  | error m => rfl
  | ok b => unfold poolExec; cases w.net w.tick <;> rfl

theorem collectKeys_net (tags : List String) (w : World) (keys : List String) :
    (collectKeys tags w keys).2.net = w.net := by
  induction tags generalizing w keys with
  | nil => rfl
  | cons tag rest ih =>
      simp only [collectKeys]
      rw [ih]
      unfold poolSMembers; cases w.net w.tick <;> rfl

theorem Invalidate_net (w : World) (tags : List String) :
    (Invalidate w tags).net = w.net := by
  unfold Invalidate poolDel
  simp only
  cases (collectKeys tags w []).2.net (collectKeys tags w []).2.tick with
  | some m => simp [World.step, collectKeys_net]
  | none =>
      cases Store.del (collectKeys tags w []).2.data (collectKeys tags w []).1 <;>
        simp [World.step, collectKeys_net]

/-- C6, at the failing input `SetByTags("k", "hello", ["t"], 1s)` on a fresh server:
the call succeeds and leaves the bare text `hello` under `k`, where `Set` leaves the
JSON text of the value; the following `Get("k")` fails with a decoding error, whereas
after `Set` it returns the value. -/
theorem SetByTags_skips_serializer :
    (SetByTags goCodec fresh "k" (text "hello") ["t"] second).1 = none ∧
    (SetByTags goCodec fresh "k" (text "hello") ["t"] second).2.data "k"
      = some (.str "hello" (some second)) ∧
    (GRedis.Set goCodec fresh "k" (text "hello") second).2.data "k"
      = some (.str "\"hello\"" (some second)) ∧
    (∃ m, (Get goCodec (SetByTags goCodec fresh "k" (text "hello") ["t"] second).2 "k").1
      = .error (.decoding m)) ∧
    (Get goCodec (GRedis.Set goCodec fresh "k" (text "hello") second).2 "k").1
      = .ok (text "hello") := by
  exact ⟨by decide, by decide, by decide, ⟨_, rfl⟩, by decide⟩

/-- C7, counterexample.  First: the second key is the tag label `A`; both tagged writes
succeed, the `SET` of the second one replaces the set at `A` by a string, so
`Invalidate(["A"])` finds no members and the entry at `k1` stays.  Second: with the
expiration `0` the `EXPIRE` deletes the tag set at once, and again the entry stays. -/
theorem Invalidate_leaves_tagged_entry :
    ((SetByTags goCodec fresh "k1" (text "v1") ["A"] second).1 = none ∧
     (SetByTags goCodec (SetByTags goCodec fresh "k1" (text "v1") ["A"] second).2
        "A" (text "v2") ["A", "B"] second).1 = none ∧
     (Invalidate (taggedPair goCodec fresh "k1" "A" "A" "B" (text "v1") (text "v2") second)
        ["A"]).data "k1" = some (.str "v1" (some second)) ∧
     (Get goCodec
        (Invalidate (taggedPair goCodec fresh "k1" "A" "A" "B" (text "v1") (text "v2") second)
          ["A"]) "k1").1 ≠ .error .cacheMiss) ∧
    ((SetByTags goCodec fresh "k1" (text "v1") ["A"] 0).1 = none ∧
     (SetByTags goCodec (SetByTags goCodec fresh "k1" (text "v1") ["A"] 0).2
        "k2" (text "v2") ["A", "B"] 0).1 = none ∧
     (Invalidate (taggedPair goCodec fresh "k1" "k2" "A" "B" (text "v1") (text "v2") 0)
        ["A"]).data "k1" = some (.str "v1" none) ∧
     (Get goCodec
        (Invalidate (taggedPair goCodec fresh "k1" "k2" "A" "B" (text "v1") (text "v2") 0)
          ["A"]) "k1").1 ≠ .error .cacheMiss) := by
  decide

/-- C7, amended: for keys `k1`, `k2` different from the tag label `A`, a positive `ttl`
and a network without faults, after `SetByTags(k1, v1, [A], ttl)` and
`SetByTags(k2, v2, [A, B], ttl)` have both succeeded, `Invalidate([A])` leaves a key
space in which `Get(k1)` and `Get(k2)` both fail with `ErrCacheMiss`. -/
theorem Invalidate_removes_tagged (c : Codec V) (w : World) (k1 k2 A B : String)
    (v1 v2 : Option V) (ttl : Duration)
    (hk1 : k1 ≠ A) (hk2 : k2 ≠ A) (httl : 0 < ttl) (hnet : ∀ n, w.net n = none)
    (h1 : (SetByTags c w k1 v1 [A] ttl).1 = none)
    (h2 : (SetByTags c (SetByTags c w k1 v1 [A] ttl).2 k2 v2 [A, B] ttl).1 = none) :
    (Get c (Invalidate (taggedPair c w k1 k2 A B v1 v2 ttl) [A]) k1).1 = .error .cacheMiss ∧
    (Get c (Invalidate (taggedPair c w k1 k2 A B v1 v2 ttl) [A]) k2).1 = .error .cacheMiss := by
  have m1 := SetByTags_ok_members c w k1 v1 [A] ttl A h1 httl hk1
  have m2 := SetByTags_ok_members c _ k2 v2 [A, B] ttl A h2 httl hk2
  have hmem1 : k1 ∈ members ((taggedPair c w k1 k2 A B v1 v2 ttl).data A) :=
    m2.1 k1 (m1.2 (by simp))
  have hmem2 : k2 ∈ members ((taggedPair c w k1 k2 A B v1 v2 ttl).data A) :=
    m2.2 (by simp)
  have hn : ∀ n, (taggedPair c w k1 k2 A B v1 v2 ttl).net n = none := by
    intro n
    unfold taggedPair
    rw [SetByTags_net, SetByTags_net]
    exact hnet n
  have hn3 : ∀ n, (Invalidate (taggedPair c w k1 k2 A B v1 v2 ttl) [A]).net n = none := by
    intro n
    rw [Invalidate_net]
    exact hn n
  have hd := fun k => Invalidate_single (taggedPair c w k1 k2 A B v1 v2 ttl) A k (hn _) (hn _)
  refine ⟨Get_of_absent c _ k1 (hn3 _) ?_, Get_of_absent c _ k2 (hn3 _) ?_⟩
  · rw [hd k1]; simp [hmem1]
  · rw [hd k2]; simp [hmem2]

theorem Invalidate_removes_tagged_witness :
    (Get goCodec
      (Invalidate (taggedPair goCodec fresh "k1" "k2" "A" "B" (text "v1") (text "v2") second)
        ["A"]) "k1").1 = .error .cacheMiss ∧
    (Get goCodec
      (Invalidate (taggedPair goCodec fresh "k1" "k2" "A" "B" (text "v1") (text "v2") second)
        ["A"]) "k2").1 = .error .cacheMiss :=
  Invalidate_removes_tagged goCodec fresh "k1" "k2" "A" "B" (text "v1") (text "v2") second
    (by decide) (by decide) (by decide) (fun _ => rfl) (by decide) (by decide)

/-- C8, counterexample: the third key is the tag label `A`.  The three tagged writes
succeed, the entry written under `k3 = "A"` is there before `Invalidate(["A"])` and gone
after it, and `Get(k3)` is a cache miss. -/
theorem Invalidate_deletes_key_named_as_tag :
    (SetByTags goCodec
      (taggedPair goCodec fresh "k1" "k2" "A" "B" (text "v1") (text "v2") second)
      "A" (text "v3") ["B"] second).1 = none ∧
    (taggedTriple goCodec fresh "k1" "k2" "A" "A" "B" (text "v1") (text "v2") (text "v3")
      second).data "A" = some (.str "v3" (some second)) ∧
    (Invalidate
      (taggedTriple goCodec fresh "k1" "k2" "A" "A" "B" (text "v1") (text "v2") (text "v3")
        second) ["A"]).data "A" = none ∧
    (Get goCodec
      (Invalidate
        (taggedTriple goCodec fresh "k1" "k2" "A" "A" "B" (text "v1") (text "v2") (text "v3")
          second) ["A"]) "A").1 = .error .cacheMiss := by
  decide

/-- C8, amended: for distinct tag labels `A`, `B` and a key `k3` that is not the label
`A`, not `k1`, not `k2` and not already a member of the set at `A`, after the two
tagged writes and `SetByTags(k3, v3, [B], ttl)`, `Invalidate([A])` leaves the entry at
`k3` unchanged; when that third write succeeded the entry is the payload it wrote.
More generally `Invalidate(tags)` changes no entry whose key is none of the given
tags and no member of the set stored under any of them.  All of it whatever the
faults of the network. -/
theorem Invalidate_isolation (c : Codec V) (w : World) (k1 k2 k3 A B : String)
    (v1 v2 v3 : Option V) (ttl : Duration)
    (hAB : A ≠ B) (h3A : k3 ≠ A) (h31 : k3 ≠ k1) (h32 : k3 ≠ k2)
    (h0 : k3 ∉ members (w.data A)) :
    (Invalidate (taggedTriple c w k1 k2 k3 A B v1 v2 v3 ttl) [A]).data k3
      = (taggedTriple c w k1 k2 k3 A B v1 v2 v3 ttl).data k3 ∧
    ((SetByTags c (taggedPair c w k1 k2 A B v1 v2 ttl) k3 v3 [B] ttl).1 = none →
      ∃ b t, c.appendArg v3 = .ok b ∧
        (Invalidate (taggedTriple c w k1 k2 k3 A B v1 v2 v3 ttl) [A]).data k3
          = some (.str b t)) ∧
    (∀ (w0 : World) (tags : List String) (k : String),
      k ∉ tags → (∀ t ∈ tags, k ∉ members (w0.data t)) →
        (Invalidate w0 tags).data k = w0.data k) := by
  have hfree : k3 ∉ members ((taggedTriple c w k1 k2 k3 A B v1 v2 v3 ttl).data A) := by
    intro hx
    unfold taggedTriple at hx
    rcases members_SetByTags c _ k3 v3 [B] ttl A k3 hx with hx | ⟨-, hx⟩
    · unfold taggedPair at hx
      rcases members_SetByTags c _ k2 v2 [A, B] ttl A k3 hx with hx | ⟨hx, -⟩
      · rcases members_SetByTags c _ k1 v1 [A] ttl A k3 hx with hx | ⟨hx, -⟩
        · exact h0 hx
        · exact h31 hx
      · exact h32 hx
    · simp at hx
      exact hAB hx
  have hkeep : (Invalidate (taggedTriple c w k1 k2 k3 A B v1 v2 v3 ttl) [A]).data k3
      = (taggedTriple c w k1 k2 k3 A B v1 v2 v3 ttl).data k3 :=
    Invalidate_other _ [A] k3 (by simpa using h3A) (by simpa using hfree)
  refine ⟨hkeep, fun h3 => ?_, fun w0 tags k hk hm => Invalidate_other w0 tags k hk hm⟩
  obtain ⟨b, t, hb, hd⟩ := SetByTags_ok_entry c _ k3 v3 [B] ttl h3
  exact ⟨b, t, hb, hkeep.trans hd⟩

theorem Invalidate_isolation_witness :
    (Invalidate
      (taggedTriple goCodec fresh "k1" "k2" "k3" "A" "B" (text "v1") (text "v2") (text "v3")
        second) ["A"]).data "k3"
      = (taggedTriple goCodec fresh "k1" "k2" "k3" "A" "B" (text "v1") (text "v2") (text "v3")
          second).data "k3" ∧
    ((SetByTags goCodec
        (taggedPair goCodec fresh "k1" "k2" "A" "B" (text "v1") (text "v2") second)
        "k3" (text "v3") ["B"] second).1 = none →
      ∃ b t, goCodec.appendArg (text "v3") = .ok b ∧
        (Invalidate
          (taggedTriple goCodec fresh "k1" "k2" "k3" "A" "B" (text "v1") (text "v2")
            (text "v3") second) ["A"]).data "k3" = some (.str b t)) ∧
    (∀ (w0 : World) (tags : List String) (k : String),
      k ∉ tags → (∀ t ∈ tags, k ∉ members (w0.data t)) →
        (Invalidate w0 tags).data k = w0.data k) :=
  Invalidate_isolation goCodec fresh "k1" "k2" "k3" "A" "B" (text "v1") (text "v2")
    (text "v3") second (by decide) (by decide) (by decide) (by decide) (by decide)

/-- The loop of `GetMulti` panics as soon as a slot it reaches is null. -/
theorem fillMap_null (res : List (Option String)) (keys : List String) (ix : Nat)
    (m : GRedis.HashMap) (j : Nat) (hj : j < keys.length)
    (hnull : res.get? (ix + j) = some none) :
    ∃ p, fillMap res keys ix m = .panicked p := by
  induction keys generalizing ix m j with
  | nil => simp at hj
  | cons key rest ih =>
      unfold fillMap
      cases hr : res.get? ix with
      | none => exact ⟨_, rfl⟩
      | some slot =>
          cases slot with
          | none => exact ⟨_, rfl⟩
          | some s =>
              cases j with
              | zero =>
                  rw [Nat.add_zero, hr] at hnull
                  cases hnull
              | succ j =>
                  simp only
                  apply ih (ix + 1) _ j (by simpa using hj)
                  rw [← hnull]
                  congr 1
                  omega

/-- C9: for every key list one of whose keys holds no string in the store, a
`GetMulti` whose round trip meets no transport fault panics instead of returning a
mapping with a null entry. -/
theorem GetMulti_panics_on_missing_key (w : World) (keys : List String) (k : String)
    (hnet : w.net w.tick = none) (hk : k ∈ keys)
    (habsent : ∀ b t, w.data k ≠ some (.str b t)) :
    ∃ p, (GetMulti w keys).1 = .panicked p := by
  have hne : keys ≠ [] := by
    intro h; rw [h] at hk; simp at hk
  obtain ⟨j, hj, hjk⟩ := List.getElem_of_mem hk
  have hslot : (match w.data k with
                | some (.str b _) => some b
                | _ => none) = (none : Option String) := by
    cases hd : w.data k with
    | none => rfl
    | some en =>
        cases en with
        | str b t => exact absurd hd (habsent b t)
        | set ms t => rfl
  have hnull : (keys.map fun k =>
      match w.data k with
      | some (.str b _) => some b
      | _ => none).get? (0 + j) = some none := by
    simp only [Nat.zero_add, List.get?_eq_getElem?, List.getElem?_map,
      List.getElem?_eq_getElem hj, Option.map_some', hjk, hslot]
  obtain ⟨p, hp⟩ := fillMap_null _ keys 0 [] j hj hnull
  refine ⟨p, ?_⟩
  simp only [GetMulti, poolMGet, hnet, Store.mget, hne, if_false, List.length_map]
  have hlen : keys.length ≠ 0 := by
    intro h; exact hne (List.length_eq_zero.1 h)
  simp only [hlen, if_false, hp]

theorem GetMulti_panics_on_missing_key_witness :
    (∃ p, (GetMulti oneKey ["a", "b"]).1 = .panicked p) ∧
    (GetMulti oneKey ["a", "b"]).1
      = .panicked (.text "interface conversion: interface \x7b\x7d is nil, not string") ∧
    (GetMulti oneKey ["a"]).1 = .returned (.ok [("a", "\"x\"")]) :=
  ⟨GetMulti_panics_on_missing_key oneKey ["a", "b"] "b" rfl (by decide)
      (by intro b t; simp [oneKey]),
    by decide, by decide⟩

end Cache

/-! ## Theorems: `LCFirst` -/

namespace Str

theorem decodeRune_two (b0 b1 : Nat) (rest : GoString) (h0 : 194 ≤ b0 ∧ b0 < 224)
    (h1 : isCont b1 = true) :
    decodeRune (b0 :: b1 :: rest) = ((b0 - 192) * 64 + (b1 - 128), 2) := by
  have a1 : ¬ b0 < 128 := by omega
  unfold decodeRune
  dsimp only
  rw [if_neg a1, if_pos h0]
  rw [if_pos h1]

theorem decodeRune_three (b0 b1 b2 : Nat) (rest : GoString) (h0 : 224 ≤ b0 ∧ b0 < 240)
    (h1 : (if b0 = 224 then 160 else 128) ≤ b1 ∧ b1 ≤ (if b0 = 237 then 159 else 191)
      ∧ isCont b2 = true) :
    decodeRune (b0 :: b1 :: b2 :: rest)
      = ((b0 - 224) * 4096 + (b1 - 128) * 64 + (b2 - 128), 3) := by
  have a1 : ¬ b0 < 128 := by omega
  have a2 : ¬ (194 ≤ b0 ∧ b0 < 224) := by omega
  unfold decodeRune
  dsimp only
  rw [if_neg a1, if_neg a2, if_pos h0]
  rw [if_pos h1]

theorem decodeRune_four (b0 b1 b2 b3 : Nat) (rest : GoString) (h0 : 240 ≤ b0 ∧ b0 < 245)
    (h1 : (if b0 = 240 then 144 else 128) ≤ b1 ∧ b1 ≤ (if b0 = 244 then 143 else 191)
      ∧ isCont b2 = true ∧ isCont b3 = true) :
    decodeRune (b0 :: b1 :: b2 :: b3 :: rest)
      = ((b0 - 240) * 262144 + (b1 - 128) * 4096 + (b2 - 128) * 64 + (b3 - 128), 4) := by
  have a1 : ¬ b0 < 128 := by omega
  have a2 : ¬ (194 ≤ b0 ∧ b0 < 224) := by omega
  have a3 : ¬ (224 ≤ b0 ∧ b0 < 240) := by omega
  unfold decodeRune
  dsimp only
  rw [if_neg a1, if_neg a2, if_neg a3, if_pos h0]
  rw [if_pos h1]

theorem isCont_low (n : Nat) : isCont (128 + n % 64) = true := by
  have h : 128 ≤ 128 + n % 64 ∧ 128 + n % 64 < 192 := by omega
  simp [isCont, h.2]

/-- Decoding the first rune of a string that starts with the encoding of a valid
rune gives that rune back. -/
theorem decodeRune_encodeRune (r : Nat) (rest : GoString) (hr : r ≤ MaxRune)
    (hs : ¬ (55296 ≤ r ∧ r < 57344)) :
    decodeRune (encodeRune r ++ rest) = (r, (encodeRune r).length) := by
  unfold MaxRune at hr
  unfold encodeRune
  by_cases h1 : r < 128
  · rw [if_pos h1]
    show decodeRune (r :: rest) = (r, 1)
    unfold decodeRune
    dsimp only
    rw [if_pos h1]
  · rw [if_neg h1]
    by_cases h2 : r < 2048
    · rw [if_pos h2]
      show decodeRune ((192 + r / 64) :: (128 + r % 64) :: rest) = (r, 2)
      rw [decodeRune_two _ _ _ (by omega) (isCont_low r)]
      refine Prod.ext ?_ rfl
      show (192 + r / 64 - 192) * 64 + (128 + r % 64 - 128) = r
      omega
    · rw [if_neg h2]
      have a0 : ¬ ((55296 ≤ r ∧ r < 57344) ∨ MaxRune < r) := by
        unfold MaxRune; omega
      rw [if_neg a0]
      by_cases h3 : r < 65536
      · rw [if_pos h3]
        show decodeRune ((224 + r / 4096) :: (128 + r / 64 % 64) :: (128 + r % 64) :: rest)
          = (r, 3)
        rw [decodeRune_three _ _ _ _ (by omega)
          ⟨by split <;> omega, by split <;> omega, isCont_low r⟩]
        refine Prod.ext ?_ rfl
        show (224 + r / 4096 - 224) * 4096 + (128 + r / 64 % 64 - 128) * 64
          + (128 + r % 64 - 128) = r
        omega
      · rw [if_neg h3]
        show decodeRune ((240 + r / 262144) :: (128 + r / 4096 % 64) :: (128 + r / 64 % 64)
          :: (128 + r % 64) :: rest) = (r, 4)
        rw [decodeRune_four _ _ _ _ _ (by omega)
          ⟨by split <;> omega, by split <;> omega, isCont_low (r / 64), isCont_low r⟩]
        refine Prod.ext ?_ rfl
        show (240 + r / 262144 - 240) * 262144 + (128 + r / 4096 % 64 - 128) * 4096
          + (128 + r / 64 % 64 - 128) * 64 + (128 + r % 64 - 128) = r
        omega

/-- Where lower-casing keeps the UTF-8 width of the first character, `LCFirst` returns
the lower-cased first character followed by the rest of the string. -/
theorem LCFirst_same_width (table : Nat → Nat) (r : Nat) (rest : GoString)
    (hr : r ≤ MaxRune) (hs : ¬ (55296 ≤ r ∧ r < 57344))
    (hw : (encodeRune (ToLower table r)).length = (encodeRune r).length) :
    LCFirst table (encodeRune r ++ rest) = some (encodeRune (ToLower table r) ++ rest) := by
  have hne : ∃ b bs, encodeRune r ++ rest = b :: bs := by
    unfold encodeRune
    split
    · exact ⟨_, _, rfl⟩
    · split
      · exact ⟨_, _, rfl⟩
      · split
        · exact ⟨_, _, rfl⟩
        · split <;> exact ⟨_, _, rfl⟩
  obtain ⟨b, bs, hb⟩ := hne
  have hd := decodeRune_encodeRune r rest hr hs
  rw [hb] at hd
  have hlen : (encodeRune (ToLower table r)).length ≤ (b :: bs).length := by
    rw [hw, ← hb]; simp
  have hdrop : (b :: bs).drop (encodeRune (ToLower table r)).length = rest := by
    rw [hw, ← hb]; simp
  rw [hb]
  simp only [LCFirst, hd, hlen, if_true, hdrop]

/-- C10, at the failing inputs.  For `İx` (U+0130, two bytes, whose lower case `i` has
one byte) `LCFirst` cuts the string after one byte and returns `i` followed by the
second byte of `İ` and by `x`, where the lower-cased first character followed by the
rest is `ix`.  For `Ⱥ` (U+023A, two bytes, whose lower case U+2C65 has three) the
slice is out of range and `LCFirst` panics. -/
theorem LCFirst_cuts_at_lowered_width (table : Nat → Nat)
    (h1 : table 304 = 105) (h2 : table 570 = 11365) :
    encodeRunes [304, 120] = [196, 176, 120] ∧
    LCFirst table [196, 176, 120] = some [105, 176, 120] ∧
    encodeRunes [ToLower table 304, 120] = [105, 120] ∧
    encodeRunes [570] = [200, 186] ∧
    LCFirst table [200, 186] = none := by
  refine ⟨by decide, ?_, ?_, by decide, ?_⟩
  · have hd : decodeRune [196, 176, 120] = (304, 2) := by decide
    simp only [LCFirst, hd, ToLower, h1]
    decide
  · simp only [ToLower, h1]
    decide
  · have hd : decodeRune [200, 186] = (570, 2) := by decide
    simp only [LCFirst, hd, ToLower, h2]
    decide

theorem LCFirst_cuts_at_lowered_width_witness :
    encodeRunes [304, 120] = [196, 176, 120] ∧
    LCFirst lowerRows [196, 176, 120] = some [105, 176, 120] ∧
    encodeRunes [ToLower lowerRows 304, 120] = [105, 120] ∧
    encodeRunes [570] = [200, 186] ∧
    LCFirst lowerRows [200, 186] = none :=
  LCFirst_cuts_at_lowered_width lowerRows (by decide) (by decide)

end Str

end PowerLibs
